import Mathlib

/-!
Verification of the corewars simulator core against its specification.

The Rust sources embedded here:
  * `src/load_file/offset.rs`  — modular `Offset` arithmetic
  * `src/core/process.rs`      — the process `Queue`
  * `src/core/mod.rs`          — `CoreConfig`, `Core`, `load_warrior`, `step`, `run`
  * `src/core/opcode.rs`       — the opcode execution engine

The files `src/core/address.rs`, `src/core/modifier.rs` and most of
`src/load_file/` are not present in the source tree; the definitions that
correspond to them are modelled from the specification (and cross-checked
against the tests in `src/core/opcode.rs`, which are present), and are
marked as such in their doc comments.

Rust `i32` arithmetic is modelled over `Int` with explicit two's-complement
wrapping (`wrap32`), matching release-mode overflow behavior; every place
where a claim depends on overflow is stated explicitly.
-/

namespace Corewars

/-- Two's-complement wrap of an integer into the `i32` range, modelling Rust
release-mode overflow behavior of `i32` arithmetic. -/
def wrap32 (x : Int) : Int :=
  Int.emod (x + 2147483648) 4294967296 - 2147483648

/-- Embeds `Offset` from `src/load_file/offset.rs`: a pair of a value and a
core size, the value kept as the Euclidean remainder modulo the core size. -/
structure Offset where
  value : Int
  core_size : Int
  deriving DecidableEq, Repr

/-- Embeds `offset_value` from `src/load_file/offset.rs`:
`value.rem_euclid(core_size)`. -/
def offset_value (value core_size : Int) : Int :=
  Int.emod value core_size

namespace Offset

/-- Embeds `Offset::new` from `src/load_file/offset.rs`. -/
def new (value core_size : Int) : Offset :=
  ⟨offset_value value core_size, core_size⟩

/-- Embeds `impl Add for Offset`: `Self::new(self.value + rhs.value, core_size)`,
the `i32` addition wrapping on overflow. The source asserts that both sides
have the same `core_size` (panicking otherwise); the embedding is only ever
applied at matching core sizes. -/
def add (a b : Offset) : Offset :=
  Offset.new (wrap32 (a.value + b.value)) a.core_size

/-- Embeds `impl Sub for Offset` (see `add` for the conventions). -/
def sub (a b : Offset) : Offset :=
  Offset.new (wrap32 (a.value - b.value)) a.core_size

/-- Embeds `impl Mul for Offset` (see `add` for the conventions). -/
def mul (a b : Offset) : Offset :=
  Offset.new (wrap32 (a.value * b.value)) a.core_size

/-- Embeds `impl Div for Offset`: Rust `i32` division truncates toward zero
(`Int.tdiv`). Division by zero panics in Rust; all call sites in the engine
guard the divisor, and the claims about `/` carry a non-zero hypothesis. -/
def div (a b : Offset) : Offset :=
  Offset.new (wrap32 (Int.tdiv a.value b.value)) a.core_size

/-- Embeds `impl Rem for Offset`: Rust `%` truncates toward zero
(`Int.tmod`); see `div` for the zero-divisor convention. -/
def rem (a b : Offset) : Offset :=
  Offset.new (wrap32 (Int.tmod a.value b.value)) a.core_size

/-- Embeds `impl Add<i32> for Offset`: the raw integer is first converted
with `Offset::new`. -/
def addInt (a : Offset) (k : Int) : Offset :=
  a.add (Offset.new k a.core_size)

/-- Embeds `impl Sub<i32> for Offset`. -/
def subInt (a : Offset) (k : Int) : Offset :=
  a.sub (Offset.new k a.core_size)

end Offset

/-- The representation invariant of `Offset` stated in the spec:
`0 ≤ value < modulus`. -/
def offsetInv (o : Offset) : Prop :=
  0 ≤ o.value ∧ o.value < o.core_size

instance (o : Offset) : Decidable (offsetInv o) := by
  unfold offsetInv; infer_instance

/-- Embeds `DEFAULT_MAX_CYCLES` from `src/core/mod.rs`. -/
def DEFAULT_MAX_CYCLES : Int := 10000

/-- Embeds `DEFAULT_CORE_SIZE` from `src/core/mod.rs`. -/
def DEFAULT_CORE_SIZE : Int := 8000

/-- Embeds `DEFAULT_MAX_PROCESSES` from `src/core/mod.rs`. -/
def DEFAULT_MAX_PROCESSES : Int := 10000

/-- Embeds `DEFAULT_MAX_WARRIOR_LENGTH` from `src/core/mod.rs`. -/
def DEFAULT_MAX_WARRIOR_LENGTH : Int := 100

/-- Embeds `DEFAULT_MIN_DISTANCE` from `src/core/mod.rs`. -/
def DEFAULT_MIN_DISTANCE : Int := 1000

/-- Embeds `CoreConfig` from `src/core/mod.rs`. -/
structure CoreConfig where
  core_size : Int
  max_cycles : Int
  max_processes : Int
  max_warrior_length : Int
  min_distance : Int
  deriving DecidableEq, Repr

/-- Embeds `impl Default for CoreConfig` from `src/core/mod.rs`. -/
def CoreConfig.default : CoreConfig :=
  { core_size := DEFAULT_CORE_SIZE
    max_cycles := DEFAULT_MAX_CYCLES
    max_processes := DEFAULT_MAX_PROCESSES
    max_warrior_length := DEFAULT_MAX_WARRIOR_LENGTH
    min_distance := DEFAULT_MIN_DISTANCE }

/-- Embeds `process::Error` from `src/core/process.rs`. -/
inductive PError where
  | noRemainingProcesses : PError
  | executeDat : Offset → PError
  | divideByZero : PError
  deriving DecidableEq, Repr

/-- Decidable equality for `Except`, needed to evaluate engine results. -/
instance {e a : Type} [DecidableEq e] [DecidableEq a] : DecidableEq (Except e a) := fun x y =>
  match x, y with
  | Except.error u, Except.error v =>
      if h : u = v then isTrue (congrArg Except.error h)
      else isFalse (fun hh => h (Except.error.inj hh))
  | Except.error _, Except.ok _ => isFalse (fun hh => Except.noConfusion hh)
  | Except.ok _, Except.error _ => isFalse (fun hh => Except.noConfusion hh)
  | Except.ok u, Except.ok v =>
      if h : u = v then isTrue (congrArg Except.ok h)
      else isFalse (fun hh => h (Except.ok.inj hh))

/-- Embeds `Error` from `src/core/mod.rs` (load / core-creation errors). -/
inductive CoreError where
  | warriorTooLong : CoreError
  | invalidCoreSize : Int → CoreError
  | warriorAlreadyLoaded : PError → CoreError
  deriving DecidableEq, Repr

/-- Embeds `BattleResult` from `src/core/mod.rs`. -/
inductive BattleResult where
  | win : BattleResult
  | loss : PError → BattleResult
  | tie : BattleResult
  deriving DecidableEq, Repr

/-- Embeds `process::Entry` from `src/core/process.rs`. -/
structure Entry where
  id : Nat
  thread : Nat
  offset : Offset
  deriving DecidableEq, Repr

/-- Association-list lookup, modelling `BTreeMap::get` for the maps in
`process::Queue` (keys are kept unique by `upsert`/`updateVal`). -/
def lookupVal {α : Type} : List (Nat × α) → Nat → Option α
  | [], _ => none
  | (k, v) :: rest, w => if k = w then some v else lookupVal rest w

/-- Insert-or-update on an association list, modelling
`BTreeMap::entry(k).or_insert(d)` followed by a write of `v`. A missing key
is appended; an existing key's value is replaced. -/
def upsert {α : Type} : List (Nat × α) → Nat → α → List (Nat × α)
  | [], k, v => [(k, v)]
  | (k0, v0) :: rest, k, v =>
      if k0 = k then (k0, v) :: rest else (k0, v0) :: upsert rest k v

/-- Embeds `process::Queue` from `src/core/process.rs`: the FIFO of entries,
the per-warrior live-entry counts (`processes`), and the per-warrior
next-thread-id counters. The `BTreeMap`s are modelled as association lists
with unique keys. -/
structure Queue where
  queue : List Entry
  processes : List (Nat × Nat)
  next_thread_id : List (Nat × Nat)
  deriving DecidableEq, Repr

namespace Queue

/-- Embeds `Queue::new` from `src/core/process.rs`. -/
def new : Queue := ⟨[], [], []⟩

/-- Embeds `Queue::push` from `src/core/process.rs`: when no thread id is
given, a fresh one is taken from `next_thread_id` (inserting 0 first if the
warrior is new) and the counter is incremented; the entry is appended to the
FIFO and the warrior's live count is incremented (inserting 0 first if
absent). No `max_processes` cap is enforced (the source marks that as a
TODO). -/
def push (q : Queue) (warrior_id : Nat) (offset : Offset) (thread : Option Nat) : Queue :=
  let tidAndNext : Nat × List (Nat × Nat) :=
    match thread with
    | some t => (t, q.next_thread_id)
    | none =>
        let cur := (lookupVal q.next_thread_id warrior_id).getD 0
        (cur, upsert q.next_thread_id warrior_id (cur + 1))
  { queue := q.queue ++ [⟨warrior_id, tidAndNext.1, offset⟩]
    processes := upsert q.processes warrior_id
      ((lookupVal q.processes warrior_id).getD 0 + 1)
    next_thread_id := tidAndNext.2 }

/-- Embeds `Queue::pop` from `src/core/process.rs`: the head entry is removed
and its warrior's live count is decremented (`usize::saturating_sub`, which
is `Nat` subtraction). The outer `Option` models the panic of the map
indexing `self.processes[&entry.id]` when the key is absent; the inner
`Except` is the function's `Result`. -/
def pop (q : Queue) : Option (Except PError (Entry × Queue)) :=
  match q.queue with
  | [] => some (Except.error PError.noRemainingProcesses)
  | e :: rest =>
      match lookupVal q.processes e.id with
      | none => none
      | some c =>
          some (Except.ok (e, { q with queue := rest, processes := upsert q.processes e.id (c - 1) }))

/-- Embeds `Queue::thread_count` from `src/core/process.rs`; `none` models
the panic when the warrior was never added. -/
def thread_count (q : Queue) (warrior_id : Nat) : Option Nat :=
  lookupVal q.processes warrior_id

end Queue

/-- Queue states reachable from the empty queue by any sequence of
(successful) `push` and `pop` operations; `Core::step` manipulates the
queue only through these two operations. -/
inductive QueueReachable : Queue → Prop where
  | empty : QueueReachable Queue.new
  | push (q : Queue) (w : Nat) (o : Offset) (t : Option Nat) :
      QueueReachable q → QueueReachable (q.push w o t)
  | pop (q q' : Queue) (e : Entry) :
      QueueReachable q → q.pop = some (Except.ok (e, q')) → QueueReachable q'

/-- The number of entries in a FIFO that belong to warrior `w`. -/
def countId (l : List Entry) (w : Nat) : Nat :=
  l.countP (fun e => decide (e.id = w))

/-- Sum of the values of an association list (total bookkeeping count). -/
def sumVals (l : List (Nat × Nat)) : Nat :=
  (l.map Prod.snd).sum

/-- Modelled from the spec: the address modes of §3 (the `load_file`
address-mode type is not in the source tree). -/
inductive AddressMode where
  | immediate
  | direct
  | indirectA
  | indirectB
  | predecrementA
  | predecrementB
  | postincrementA
  | postincrementB
  deriving DecidableEq, Repr

/-- Modelled from the spec: a `Field` is an address mode plus a numeric
value (§3); after loading, values are normalized modulo the core size. The
`load_file` field type is not in the source tree. -/
structure Field where
  mode : AddressMode
  value : Int
  deriving DecidableEq, Repr

/-- Modelled from the spec: the opcode set of §3 (the `load_file` opcode
type is not in the source tree; the variant list matches the uses in
`src/core/opcode.rs`). -/
inductive Opcode where
  | dat | mov | add | sub | mul | div | mod
  | jmp | jmz | jmn | djn | cmp | seq | sne | slt
  | spl | nop | ldp | stp
  deriving DecidableEq, Repr

/-- Modelled from the spec: the modifier set of §3. -/
inductive Modifier where
  | a | b | ab | ba | f | x | i
  deriving DecidableEq, Repr

/-- Modelled from the spec: an `Instruction` is an opcode, a modifier and
two fields (§3); the `load_file` instruction type is not in the source
tree. -/
structure Instruction where
  opcode : Opcode
  modifier : Modifier
  a_field : Field
  b_field : Field
  deriving DecidableEq, Repr

/-- Embeds `Instruction::default` as described by `Core::new`'s contract in
the spec (§4.2): `DAT.F $0, $0`, both fields direct with value 0. -/
def Instruction.default : Instruction :=
  ⟨Opcode.dat, Modifier.f, ⟨AddressMode.direct, 0⟩, ⟨AddressMode.direct, 0⟩⟩

/-- Selector for the A- or B-field of an instruction. -/
inductive FieldSel where
  | fa
  | fb
  deriving DecidableEq, Repr

/-- Read the selected field's value. -/
def Instruction.fieldVal (ins : Instruction) : FieldSel → Int
  | FieldSel.fa => ins.a_field.value
  | FieldSel.fb => ins.b_field.value

/-- Replace the selected field's value, keeping its address mode
(`Field::set_value`). -/
def Instruction.setFieldVal (ins : Instruction) : FieldSel → Int → Instruction
  | FieldSel.fa, v => { ins with a_field := ⟨ins.a_field.mode, v⟩ }
  | FieldSel.fb, v => { ins with b_field := ⟨ins.b_field.mode, v⟩ }

/-- Modelled from the spec: `Program` (§3) — the `load_file` program type
is not in the source tree. -/
structure Program where
  instructions : List Instruction
  origin : Option Nat
  deriving DecidableEq, Repr

/-- Modelled from the spec: `Warrior` (§3), metadata omitted — the
`load_file` warrior type is not in the source tree. `Warrior::len()` is the
length of the instruction sequence. -/
structure Warrior where
  program : Program
  deriving DecidableEq, Repr

/-- Embeds `Core` from `src/core/mod.rs`. The `log` field (a per-step
snapshot list used only for debugging) is omitted; no claim concerns it. -/
structure Core where
  config : CoreConfig
  instructions : List Instruction
  process_queue : Queue
  steps_taken : Int
  warriors : List Nat
  deriving DecidableEq, Repr

namespace Core

/-- Embeds `Core::len`: the number of instructions in the core. -/
def len (core : Core) : Int :=
  (core.instructions.length : Int)

/-- Embeds `Core::offset`: normalize a raw value over the core size. -/
def offsetOf (core : Core) (value : Int) : Offset :=
  Offset.new value core.len

/-- Embeds `Core::get_offset`: index the instruction array at the offset's
value (in bounds whenever the offset is normalized to the core size). -/
def getO (core : Core) (o : Offset) : Instruction :=
  core.instructions.getD o.value.toNat Instruction.default

/-- Write the instruction at an offset (`Core::get_offset_mut` assignment). -/
def setO (core : Core) (o : Offset) (ins : Instruction) : Core :=
  { core with instructions := core.instructions.set o.value.toNat ins }

/-- Embeds `Core::new` from `src/core/mod.rs`: `core_size` default
instructions, an empty queue, zero steps, no warriors. -/
def new (config : CoreConfig) : Core :=
  { config := config
    instructions := List.replicate config.core_size.toNat Instruction.default
    process_queue := Queue.new
    steps_taken := 0
    warriors := [] }

/-- Embeds `Core::normalize` from `src/core/mod.rs`: both field values are
replaced by their normalization over the core size. -/
def normalize (core : Core) (ins : Instruction) : Instruction :=
  { ins with
    a_field := ⟨ins.a_field.mode, (core.offsetOf ins.a_field.value).value⟩
    b_field := ⟨ins.b_field.mode, (core.offsetOf ins.b_field.value).value⟩ }

end Core

/-- Modelled from the spec: operand resolution (§4.3, steps 1–2) — the file
`src/core/address.rs` is not in the source tree. Given the executing
instruction's field, produce the absolute pointer and the core after any
predecrement/postincrement side effect. Predecrement decrements the
intermediate cell's field before the pointer is read; postincrement
captures the pointer first and then increments the intermediate cell's
field, as fixed by the `dat >1, >2` test in `src/core/opcode.rs`. -/
def resolveField (core : Core) (pc : Offset) (f : Field) : Offset × Core :=
  match f.mode with
  | AddressMode.immediate => (pc, core)
  | AddressMode.direct => (pc.addInt f.value, core)
  | AddressMode.indirectA =>
      let inter := pc.addInt f.value
      let v := (core.getO inter).a_field.value
      ((pc.addInt f.value).addInt v, core)
  | AddressMode.indirectB =>
      let inter := pc.addInt f.value
      let v := (core.getO inter).b_field.value
      ((pc.addInt f.value).addInt v, core)
  | AddressMode.predecrementA =>
      let inter := pc.addInt f.value
      let cell := core.getO inter
      let newVal := (Offset.subInt ⟨cell.a_field.value, core.len⟩ 1).value
      let core' := core.setO inter (cell.setFieldVal FieldSel.fa newVal)
      ((pc.addInt f.value).addInt newVal, core')
  | AddressMode.predecrementB =>
      let inter := pc.addInt f.value
      let cell := core.getO inter
      let newVal := (Offset.subInt ⟨cell.b_field.value, core.len⟩ 1).value
      let core' := core.setO inter (cell.setFieldVal FieldSel.fb newVal)
      ((pc.addInt f.value).addInt newVal, core')
  | AddressMode.postincrementA =>
      let inter := pc.addInt f.value
      let cell := core.getO inter
      let v := cell.a_field.value
      let ptr := (pc.addInt f.value).addInt v
      let core' := core.setO inter
        (cell.setFieldVal FieldSel.fa ((Offset.addInt ⟨v, core.len⟩ 1).value))
      (ptr, core')
  | AddressMode.postincrementB =>
      let inter := pc.addInt f.value
      let cell := core.getO inter
      let v := cell.b_field.value
      let ptr := (pc.addInt f.value).addInt v
      let core' := core.setO inter
        (cell.setFieldVal FieldSel.fb ((Offset.addInt ⟨v, core.len⟩ 1).value))
      (ptr, core')

/-- The state of `modifier::Executor` after construction: both pointers
resolved (with side effects applied to the core, A first, then B) and the
operand instructions latched as local copies. -/
structure Resolved where
  a_ptr : Offset
  a_instr : Instruction
  b_ptr : Offset
  b_instr : Instruction
  core : Core
  deriving DecidableEq, Repr

/-- Modelled from the spec: `modifier::Executor::new` (§4.3 steps 1–3) —
the file `src/core/modifier.rs` is not in the source tree. The A operand is
latched before the B field's side effects are applied, as fixed by the
`add_with_predecrement` test in `src/core/opcode.rs`. -/
def resolveOperands (core : Core) (pc : Offset) : Resolved :=
  let instruction := core.getO pc
  let ra := resolveField core pc instruction.a_field
  let a_instr := ra.2.getO ra.1
  let rb := resolveField ra.2 pc instruction.b_field
  let b_instr := rb.2.getO rb.1
  ⟨ra.1, a_instr, rb.1, b_instr, rb.2⟩

/-- Modelled from the spec: the modifier table of §4.3. Each pair is
(field of the A operand to read, field of the B operand to read and of the
B target to write); `I` behaves like `F` at field level. -/
def fieldPairs : Modifier → List (FieldSel × FieldSel)
  | Modifier.a => [(FieldSel.fa, FieldSel.fa)]
  | Modifier.b => [(FieldSel.fb, FieldSel.fb)]
  | Modifier.ab => [(FieldSel.fa, FieldSel.fb)]
  | Modifier.ba => [(FieldSel.fb, FieldSel.fa)]
  | Modifier.f => [(FieldSel.fa, FieldSel.fa), (FieldSel.fb, FieldSel.fb)]
  | Modifier.x => [(FieldSel.fa, FieldSel.fb), (FieldSel.fb, FieldSel.fa)]
  | Modifier.i => [(FieldSel.fa, FieldSel.fa), (FieldSel.fb, FieldSel.fb)]

/-- Modelled from the spec: `Executor::run_on_fields` (§4.3 steps 4–5) —
the file `src/core/modifier.rs` is not in the source tree. The callback is
run once per modifier-selected field pair on the latched operand values;
a `some` result is written through the B pointer into the selected field.
The state `σ` models the mutable captures of the Rust closures. -/
def runOnFields {σ : Type} (md : Modifier) (res : Resolved) (st0 : σ)
    (f : σ → Offset → Offset → σ × Option Offset) : Core × σ :=
  (fieldPairs md).foldl
    (fun acc p =>
      let m := acc.1.len
      let x : Offset := ⟨res.a_instr.fieldVal p.1, m⟩
      let y : Offset := ⟨res.b_instr.fieldVal p.2, m⟩
      let stepRes := f acc.2 x y
      match stepRes.2 with
      | some v =>
          let cell := acc.1.getO res.b_ptr
          (acc.1.setO res.b_ptr (cell.setFieldVal p.2 v.value), stepRes.1)
      | none => (acc.1, stepRes.1))
    (res.core, st0)

/-- Modelled from the spec: `Executor::run_on_instructions` — for modifier
`I` the instruction-level callback is applied to the whole latched
operands and a `some` result replaces the whole B-target cell; for every
other modifier this is `run_on_fields` with the field-level callback. -/
def runOnInstructions {σ : Type} (md : Modifier) (res : Resolved) (st0 : σ)
    (fF : σ → Offset → Offset → σ × Option Offset)
    (fI : σ → Instruction → Instruction → σ × Option Instruction) : Core × σ :=
  match md with
  | Modifier.i =>
      let stepRes := fI st0 res.a_instr res.b_instr
      match stepRes.2 with
      | some ins => (res.core.setO res.b_ptr ins, stepRes.1)
      | none => (res.core, stepRes.1)
  | _ => runOnFields md res st0 fF

/-- Embeds `Executed` from `src/core/opcode.rs`. -/
structure Executed where
  program_counter_offset : Option Offset
  should_split : Bool
  deriving DecidableEq, Repr

/-- Embeds `execute` from `src/core/opcode.rs`. The outer `Option` models
panics (`unimplemented!()` for `LDP`/`STP`); the `Except` is the function's
`Result`. Operand resolution (with its side effects) happens before the
opcode dispatch, so `DAT` fails only after those effects are committed. -/
def executeOp (opc : Opcode) (md : Modifier) (res : Resolved)
    (pc zero skip_one jump_offset : Offset) : Option (Except PError Executed × Core) :=
  match opc with
  | Opcode.dat => some (Except.error (PError.executeDat pc), res.core)
  | Opcode.mov =>
      let r := runOnInstructions md res ()
        (fun s a _b => (s, some a)) (fun s a _b => (s, some a))
      some (Except.ok ⟨none, false⟩, r.1)
  | Opcode.nop => some (Except.ok ⟨none, false⟩, res.core)
  | Opcode.add =>
      let r := runOnFields md res ()
        (fun s a b => (s, some (a.add b)))
      some (Except.ok ⟨none, false⟩, r.1)
  | Opcode.mul =>
      let r := runOnFields md res ()
        (fun s a b => (s, some (a.mul b)))
      some (Except.ok ⟨none, false⟩, r.1)
  | Opcode.sub =>
      let r := runOnFields md res ()
        (fun s a b => (s, some (b.sub a)))
      some (Except.ok ⟨none, false⟩, r.1)
  | Opcode.div =>
      let r := runOnFields md res false
        (fun e a b => if b.value = 0 then (true, none) else (e, some (a.div b)))
      if r.2 then some (Except.error PError.divideByZero, r.1)
      else some (Except.ok ⟨none, false⟩, r.1)
  | Opcode.mod =>
      let r := runOnFields md res false
        (fun e a b => if b.value = 0 then (true, none) else (e, some (a.rem b)))
      if r.2 then some (Except.error PError.divideByZero, r.1)
      else some (Except.ok ⟨none, false⟩, r.1)
  | Opcode.cmp =>
      let r := runOnInstructions md res (some skip_one)
        (fun st a b => (if a = b then st else none, none))
        (fun st a b => (if a = b then st else none, none))
      some (Except.ok ⟨r.2, false⟩, r.1)
  | Opcode.seq =>
      let r := runOnInstructions md res (some skip_one)
        (fun st a b => (if a = b then st else none, none))
        (fun st a b => (if a = b then st else none, none))
      some (Except.ok ⟨r.2, false⟩, r.1)
  | Opcode.slt =>
      let r := runOnFields md res (some skip_one)
        (fun st a b => (if a.value ≥ b.value then none else st, none))
      some (Except.ok ⟨r.2, false⟩, r.1)
  | Opcode.sne =>
      let r := runOnInstructions md res none
        (fun st a b => (if a = b then st else some skip_one, none))
        (fun st a b => (if a = b then st else some skip_one, none))
      some (Except.ok ⟨r.2, false⟩, r.1)
  | Opcode.djn =>
      let r := runOnFields md res none
        (fun st _a b =>
          let dec := b.subInt 1
          ((if dec ≠ zero then some jump_offset else st), some dec))
      some (Except.ok ⟨r.2, false⟩, r.1)
  | Opcode.jmn =>
      let r := runOnFields md res none
        (fun st _a b => ((if b ≠ zero then some jump_offset else st), none))
      some (Except.ok ⟨r.2, false⟩, r.1)
  | Opcode.jmp => some (Except.ok ⟨some jump_offset, false⟩, res.core)
  | Opcode.spl => some (Except.ok ⟨some jump_offset, true⟩, res.core)
  | Opcode.jmz =>
      let r := runOnFields md res none
        (fun st _a b => ((if b = zero then some jump_offset else st), none))
      some (Except.ok ⟨r.2, false⟩, r.1)
  | Opcode.ldp => none
  | Opcode.stp => none

def execute (core0 : Core) (pc : Offset) : Option (Except PError Executed × Core) :=
  let instruction := core0.getO pc
  let res := resolveOperands core0 pc
  executeOp instruction.opcode instruction.modifier res pc
    (res.core.offsetOf 0) (res.core.offsetOf 2) (res.a_ptr.sub pc)

/-- Embeds `StepResult` from `src/core/mod.rs`. -/
inductive StepResult where
  | cont : Nat → Option PError → StepResult
  | halt : StepResult
  deriving DecidableEq, Repr

namespace Core

/-- Writes a list of instructions into the core's array at indices
`0, 1, 2, …` (the loop in `Core::load_warrior`). -/
def writeFrom : List Instruction → Nat → List Instruction → List Instruction
  | dst, _, [] => dst
  | dst, i, x :: xs => writeFrom (dst.set i x) (i + 1) xs

/-- Embeds `Core::load_warrior` from `src/core/mod.rs`: reject a warrior
longer than `max_warrior_length` (leaving the core untouched); otherwise
register the next warrior id, copy the normalized instructions into cells
`0, 1, …` (always at the front of the core — there is no spacing or
`min_distance` logic), and enqueue one entry at the warrior's origin with a
fresh thread id. -/
def load_warrior (core : Core) (warrior : Warrior) : Except CoreError Nat × Core :=
  if (warrior.program.instructions.length : Int) > core.config.max_warrior_length then
    (Except.error CoreError.warriorTooLong, core)
  else
    let warrior_id := core.warriors.length
    let core1 := { core with warriors := core.warriors ++ [warrior_id] }
    let core2 := { core1 with
      instructions :=
        writeFrom core1.instructions 0 (warrior.program.instructions.map core1.normalize) }
    let origin : Int := (warrior.program.origin.getD 0 : Nat)
    let core3 := { core2 with
      process_queue := core2.process_queue.push warrior_id (core2.offsetOf origin) none }
    (Except.ok warrior_id, core3)

/-- Embeds `Core::step` from `src/core/mod.rs`. A failed pop halts without
counting a step; otherwise `steps_taken` is incremented, the instruction at
the popped offset is executed, a task-terminating error is converted into a
`Loss`-signalling result exactly when it killed the warrior's last thread,
and on success the follow-up entries are enqueued (`SPL` first re-enqueues
`PC+1` under the current thread id, then the jump target under a fresh
thread id). The outer `Option` models panics. -/
def step (core : Core) : Option (StepResult × Core) :=
  match core.process_queue.pop with
  | none => none
  | some (Except.error _) => some (StepResult.halt, core)
  | some (Except.ok (entry, q')) =>
      let core1 := { core with process_queue := q', steps_taken := core.steps_taken + 1 }
      match execute core1 entry.offset with
      | none => none
      | some (Except.error e, core2) =>
          match e with
          | PError.divideByZero =>
              match core2.process_queue.thread_count entry.id with
              | none => none
              | some c =>
                  some (StepResult.cont entry.id
                    (if c < 1 then some PError.divideByZero else none), core2)
          | PError.executeDat o =>
              match core2.process_queue.thread_count entry.id with
              | none => none
              | some c =>
                  some (StepResult.cont entry.id
                    (if c < 1 then some (PError.executeDat o) else none), core2)
          | PError.noRemainingProcesses => none
      | some (Except.ok result, core2) =>
          let split : Option Nat × Core :=
            if result.should_split then
              (none, { core2 with process_queue :=
                core2.process_queue.push entry.id (entry.offset.addInt 1) (some entry.thread) })
            else (some entry.thread, core2)
          let off := result.program_counter_offset.getD (split.2.offsetOf 1)
          let core3 := { split.2 with process_queue :=
            split.2.process_queue.push entry.id (entry.offset.add off) split.1 }
          some (StepResult.cont entry.id none, core3)

end Core

/-- The number of `Loss` results in a result map (the `filter` count in
`Core::run`). -/
def countLoss (results : List (Nat × BattleResult)) : Nat :=
  results.countP (fun p => match p.2 with | BattleResult.loss _ => true | _ => false)

namespace Core

/-- The `while` loop of `Core::run`, with explicit fuel (each non-halting
iteration increases `steps_taken`, so `max_cycles − steps_taken + 1` fuel
suffices). A `Loss` is recorded when a step reports a dead warrior; with
more than one warrior the loop stops early once at most one survivor
remains. -/
def runAux : Nat → Core → List (Nat × BattleResult) → Option (List (Nat × BattleResult) × Core)
  | 0, _, _ => none
  | fuel + 1, core, results =>
      if core.steps_taken < core.config.max_cycles then
        match core.step with
        | none => none
        | some (StepResult.halt, core1) => some (results, core1)
        | some (StepResult.cont id err, core1) =>
            let results1 :=
              match err with
              | some e => upsert results id (BattleResult.loss e)
              | none => results
            if 1 < core1.warriors.length ∧
                core1.warriors.length - countLoss results1 ≤ 1 then
              some (results1, core1)
            else
              runAux fuel core1 results1
      else some (results, core)

/-- Embeds `Core::run` from `src/core/mod.rs`: loop `step` until the cycle
cap, an empty queue, or a single survivor; then fill in `Tie` for every
unreported warrior when two or more survive, else `Win`. -/
def run (core : Core) : Option (List (Nat × BattleResult) × Core) :=
  let fuel := (core.config.max_cycles - core.steps_taken).toNat + 1
  match runAux fuel core [] with
  | none => none
  | some (results, core1) =>
      let survivors := core1.warriors.length - countLoss results
      let final :=
        if 1 < survivors then
          core1.warriors.foldl
            (fun acc id =>
              match lookupVal acc id with
              | some _ => acc
              | none => upsert acc id BattleResult.tie) results
        else
          core1.warriors.foldl
            (fun acc id =>
              match lookupVal acc id with
              | some _ => acc
              | none => upsert acc id BattleResult.win) results
      some (final, core1)

end Core


/-- Helper to build an instruction from its parts. -/
def mkInstruction (o : Opcode) (md : Modifier) (am : AddressMode) (av : Int)
    (bm : AddressMode) (bv : Int) : Instruction :=
  ⟨o, md, ⟨am, av⟩, ⟨bm, bv⟩⟩

/-- A small configuration (core size 8) used for concrete executions. -/
def testConfig : CoreConfig := ⟨8, 100, 100, 100, 1⟩

/-- A configuration with `max_processes = 1`, for exercising the `SPL` cap. -/
def splConfig : CoreConfig := ⟨8, 100, 1, 100, 1⟩

/-- A configuration with `max_warrior_length = 0`, for exercising rejection. -/
def tinyConfig : CoreConfig := ⟨4, 10, 10, 0, 1⟩

/-- The one-instruction warrior `DAT #0, #0` (the spec's suicide scenario). -/
def datWarrior : Warrior :=
  ⟨⟨[mkInstruction Opcode.dat Modifier.f AddressMode.immediate 0 AddressMode.immediate 0], none⟩⟩

/-- The one-instruction warrior `SPL $0, $0`. -/
def splWarrior : Warrior :=
  ⟨⟨[mkInstruction Opcode.spl Modifier.b AddressMode.direct 0 AddressMode.direct 0], none⟩⟩

/-- The one-instruction warrior `JMP $0, $0`. -/
def jmpWarrior : Warrior :=
  ⟨⟨[mkInstruction Opcode.jmp Modifier.b AddressMode.direct 0 AddressMode.direct 0], none⟩⟩

/-- The `SPL` warrior loaded into a fresh core with `max_processes = 1`. -/
def splLoaded : Core := (Core.load_warrior (Core.new splConfig) splWarrior).2

/-- A configuration where the claimed placement rule is satisfiable:
core size 8, `max_warrior_length` 1, `min_distance` 1, so for two warriors
`spacing = 4 ≥ min_distance` and the claimed interval for warrior 1 is
`[5, 7)`. -/
def c2Config : CoreConfig := ⟨8, 100, 100, 1, 1⟩

/-- Two one-instruction warriors loaded into a fresh `c2Config` core. -/
def c2TwoLoaded : Core :=
  (Core.load_warrior (Core.load_warrior (Core.new c2Config) jmpWarrior).2 jmpWarrior).2

/-- Placeholder entry for out-of-range FIFO indexing in statements. -/
def dummyEntry : Entry := ⟨0, 0, ⟨0, 0⟩⟩

/-- A size-8 core whose cell 0 holds `DAT >1, >2` (the postincrement test of
`src/core/opcode.rs`). -/
def datPostCore : Core :=
  { config := testConfig
    instructions :=
      mkInstruction Opcode.dat Modifier.f AddressMode.postincrementB 1 AddressMode.postincrementB 2
        :: List.replicate 7 Instruction.default
    process_queue := Queue.new
    steps_taken := 0
    warriors := [0] }

/-- The operand instruction `DAT #x, #y` used by the `DIV`/`MOD`
scenarios. -/
def datCell (x y : Int) : Instruction :=
  mkInstruction Opcode.dat Modifier.f AddressMode.immediate x AddressMode.immediate y

/-- The error condition the spec states for `DIV`/`MOD`: some
modifier-selected divisor field reads 0 in the latched divisor operand. -/
def divisorZero (md : Modifier) (divisor : Instruction) : Prop :=
  ∃ p ∈ fieldPairs md, divisor.fieldVal p.2 = 0

instance (md : Modifier) (d : Instruction) : Decidable (divisorZero md d) := by
  unfold divisorZero; infer_instance

/-- The per-side write behavior the spec states for `DIV`/`MOD`: starting
from the B-target cell, each modifier-selected side whose divisor field is
non-zero receives the combination of the latched dividend and divisor
fields; zero-divisor sides are left unwritten. -/
def combineSides (md : Modifier) (dividend target : Instruction)
    (f : Int → Int → Int) : Instruction :=
  (fieldPairs md).foldl
    (fun cell p =>
      if target.fieldVal p.2 = 0 then cell
      else cell.setFieldVal p.2 (f (dividend.fieldVal p.1) (target.fieldVal p.2)))
    target

/-- A size-8 core whose cell 0 holds `DIV.md $1, $2`, cell 1 the dividend
operand `DAT #a1, #b1`, and cell 2 the divisor operand `DAT #a2, #b2`. -/
def divCore (md : Modifier) (a1 b1 a2 b2 : Int) : Core :=
  { config := testConfig
    instructions :=
      [mkInstruction Opcode.div md AddressMode.direct 1 AddressMode.direct 2,
        mkInstruction Opcode.dat Modifier.f AddressMode.immediate a1 AddressMode.immediate b1,
        mkInstruction Opcode.dat Modifier.f AddressMode.immediate a2 AddressMode.immediate b2]
        ++ List.replicate 5 Instruction.default
    process_queue := Queue.new
    steps_taken := 0
    warriors := [0] }

/-- Same as `divCore` with opcode `MOD`. -/
def modCore (md : Modifier) (a1 b1 a2 b2 : Int) : Core :=
  { config := testConfig
    instructions :=
      [mkInstruction Opcode.mod md AddressMode.direct 1 AddressMode.direct 2,
        mkInstruction Opcode.dat Modifier.f AddressMode.immediate a1 AddressMode.immediate b1,
        mkInstruction Opcode.dat Modifier.f AddressMode.immediate a2 AddressMode.immediate b2]
        ++ List.replicate 5 Instruction.default
    process_queue := Queue.new
    steps_taken := 0
    warriors := [0] }

/-- A queue reached by a single push, used to instantiate the reachability
invariant. -/
def reachQ : Queue := Queue.push Queue.new 0 (Offset.new 0 8) none

/-! ## Helper lemmas -/

lemma wrap32_eq_self {x : Int} (h0 : -2147483648 ≤ x) (h1 : x < 2147483648) :
    wrap32 x = x := by
  show (x + 2147483648) % 4294967296 - 2147483648 = x
  omega

lemma offset_new_inv {v m : Int} (hm : 0 < m) : offsetInv (Offset.new v m) := by
  unfold offsetInv Offset.new offset_value
  constructor
  · exact Int.emod_nonneg v (by omega)
  · simpa using Int.emod_lt_of_pos v hm

/-! ## Claim C9 -/

/-- Claim C9, counterexample: the claimed default values 80000 (`max_cycles`),
8000 (`max_processes`) and 100 (`min_distance`) do not match
`CoreConfig::default`, which uses 10000, 10000 and 1000. -/
theorem claim_c9_counterexample :
    ¬(CoreConfig.default.core_size = 8000 ∧ CoreConfig.default.max_cycles = 80000 ∧
      CoreConfig.default.max_processes = 8000 ∧
      CoreConfig.default.max_warrior_length = 100 ∧
      CoreConfig.default.min_distance = 100) := by
  decide

/-- Claim C9, amended: the default `CoreConfig` has `core_size` 8000,
`max_cycles` 10000, `max_processes` 10000, `max_warrior_length` 100 and
`min_distance` 1000. -/
theorem claim_c9_theorem :
    CoreConfig.default.core_size = 8000 ∧ CoreConfig.default.max_cycles = 10000 ∧
    CoreConfig.default.max_processes = 10000 ∧
    CoreConfig.default.max_warrior_length = 100 ∧
    CoreConfig.default.min_distance = 1000 := by
  decide

/-! ## Claim C7 -/

/-- Claim C7, counterexample: with modulus 100000 and both operands 99999,
the `i32` multiplication overflows (wrapping), so `(a * b).value = 65409`
while the claimed Euclidean value of the mathematical product is 1. -/
theorem claim_c7_counterexample :
    ((Offset.new 99999 100000).mul (Offset.new 99999 100000)).value = 65409 ∧
    Int.emod ((Offset.new 99999 100000).value * (Offset.new 99999 100000).value) 100000 = 1 ∧
    (65409 : Int) ≠ 1 := by
  decide

/-- Claim C7, amended: for offsets with the same positive modulus (an `i32`
core size) whose values satisfy the representation invariant, the arithmetic
operations agree with the Euclidean remainder of the corresponding integer
operation, provided the intermediate `i32` operation does not overflow
(automatic for `-`, `/`, `%`; assumed for `+` and `*`) and the divisor is
non-zero for `/` and `%`. Rust `/` and `%` truncate toward zero
(`Int.tdiv` / `Int.tmod`). -/
theorem claim_c7_theorem (a b : Offset) (hcs : a.core_size = b.core_size)
    (hpos : 0 < a.core_size) (hsz : a.core_size ≤ 2147483647)
    (ha : offsetInv a) (hb : offsetInv b)
    (hadd : a.value + b.value < 2147483648)
    (hmul : a.value * b.value < 2147483648)
    (hb0 : b.value ≠ 0) :
    (a.add b).value = Int.emod (a.value + b.value) a.core_size ∧
    (a.sub b).value = Int.emod (a.value - b.value) a.core_size ∧
    (a.mul b).value = Int.emod (a.value * b.value) a.core_size ∧
    (a.div b).value = Int.emod (Int.tdiv a.value b.value) a.core_size ∧
    (a.rem b).value = Int.emod (Int.tmod a.value b.value) a.core_size := by
  obtain ⟨ha0, ha1⟩ := ha
  obtain ⟨hbl, hbu⟩ := hb
  have hbpos : 0 < b.value := lt_of_le_of_ne hbl (Ne.symm hb0)
  refine ⟨?_, ?_, ?_, ?_, ?_⟩
  · show (Offset.new (wrap32 (a.value + b.value)) a.core_size).value = _
    rw [wrap32_eq_self (by omega) hadd]; rfl
  · show (Offset.new (wrap32 (a.value - b.value)) a.core_size).value = _
    rw [wrap32_eq_self (by omega) (by omega)]; rfl
  · have hp : 0 ≤ a.value * b.value := mul_nonneg ha0 hbl
    show (Offset.new (wrap32 (a.value * b.value)) a.core_size).value = _
    rw [wrap32_eq_self (by omega) hmul]; rfl
  · have h1 : 0 ≤ Int.tdiv a.value b.value := Int.tdiv_nonneg ha0 hbl
    have h2 : Int.tdiv a.value b.value ≤ a.value := by
      rw [Int.tdiv_eq_ediv ha0 hbl]
      exact Int.ediv_le_self _ ha0
    show (Offset.new (wrap32 (Int.tdiv a.value b.value)) a.core_size).value = _
    rw [wrap32_eq_self (by omega) (by omega)]; rfl
  · have h1 : 0 ≤ Int.tmod a.value b.value := Int.tmod_nonneg _ ha0
    have h2 : Int.tmod a.value b.value < b.value := Int.tmod_lt_of_pos a.value hbpos
    show (Offset.new (wrap32 (Int.tmod a.value b.value)) a.core_size).value = _
    rw [wrap32_eq_self (by omega) (by omega)]; rfl

/-- Witness for claim C7 at the concrete offsets 3 and 5 modulo 8. -/
theorem claim_c7_witness :
    ((Offset.new 3 8).add (Offset.new 5 8)).value =
      Int.emod ((Offset.new 3 8).value + (Offset.new 5 8).value) (Offset.new 3 8).core_size ∧
    ((Offset.new 3 8).sub (Offset.new 5 8)).value =
      Int.emod ((Offset.new 3 8).value - (Offset.new 5 8).value) (Offset.new 3 8).core_size ∧
    ((Offset.new 3 8).mul (Offset.new 5 8)).value =
      Int.emod ((Offset.new 3 8).value * (Offset.new 5 8).value) (Offset.new 3 8).core_size ∧
    ((Offset.new 3 8).div (Offset.new 5 8)).value =
      Int.emod (Int.tdiv (Offset.new 3 8).value (Offset.new 5 8).value) (Offset.new 3 8).core_size ∧
    ((Offset.new 3 8).rem (Offset.new 5 8)).value =
      Int.emod (Int.tmod (Offset.new 3 8).value (Offset.new 5 8).value) (Offset.new 3 8).core_size :=
  claim_c7_theorem (Offset.new 3 8) (Offset.new 5 8) rfl (by decide) (by decide)
    (by decide) (by decide) (by decide) (by decide) (by decide)

/-! ## Claim C8 -/

/-- Claim C8: `Offset::new` with a positive modulus, and every arithmetic
operation on offsets over a positive core size, produce a representative
with `0 ≤ value < modulus`. -/
theorem claim_c8_theorem (v m : Int) (a b : Offset) (hm : 0 < m)
    (hc : 0 < a.core_size) :
    offsetInv (Offset.new v m) ∧ offsetInv (a.add b) ∧ offsetInv (a.sub b) ∧
    offsetInv (a.mul b) ∧ offsetInv (a.div b) ∧ offsetInv (a.rem b) :=
  ⟨offset_new_inv hm, offset_new_inv hc, offset_new_inv hc,
    offset_new_inv hc, offset_new_inv hc, offset_new_inv hc⟩

/-- Witness for claim C8 at `v = -5`, `m = 3` and the offsets 1 and 2
modulo 4. -/
theorem claim_c8_witness :
    offsetInv (Offset.new (-5) 3) ∧
    offsetInv ((Offset.new 1 4).add (Offset.new 2 4)) ∧
    offsetInv ((Offset.new 1 4).sub (Offset.new 2 4)) ∧
    offsetInv ((Offset.new 1 4).mul (Offset.new 2 4)) ∧
    offsetInv ((Offset.new 1 4).div (Offset.new 2 4)) ∧
    offsetInv ((Offset.new 1 4).rem (Offset.new 2 4)) :=
  claim_c8_theorem (-5) 3 (Offset.new 1 4) (Offset.new 2 4) (by decide) (by decide)

/-! ## Claim C1 -/

/-- Claim C1, counterexample: in a core with `max_processes = 1` and one
warrior whose single entry sits on `SPL $0, $0`, one `step` leaves the
warrior with 2 live queue entries and queue length 2, exceeding
`num_warriors × max_processes = 1`; the would-be new entry is not dropped. -/
theorem claim_c1_counterexample :
    splLoaded.config.max_processes = 1 ∧
    splLoaded.warriors.length = 1 ∧
    splLoaded.process_queue.thread_count 0 = some 1 ∧
    (Core.step splLoaded).map (fun p => p.2.process_queue.thread_count 0) =
      some (some 2) ∧
    (Core.step splLoaded).map (fun p => p.2.process_queue.queue.length) = some 2 ∧
    ¬((2 : Int) ≤ 1 * splLoaded.config.max_processes) := by
  decide

/-- Claim C1, amended: `Queue::push` enforces no cap at all (the
`max_processes` limit is an unimplemented TODO in the source): every push,
and in particular each of the two enqueues of an `SPL`, unconditionally
appends an entry, so the queue length is not bounded by
`num_warriors × max_processes`. -/
theorem claim_c1_theorem (q : Queue) (w : Nat) (o : Offset) (t : Option Nat) :
    (q.push w o t).queue.length = q.queue.length + 1 := by
  simp [Queue.push]

/-! ## Claim C10 -/

/-- Claim C10: loading a warrior whose instruction count exceeds
`max_warrior_length` returns `WarriorTooLong` and leaves the core completely
unchanged (no cell written, no queue entry, no warrior registered). -/
theorem claim_c10_theorem (core : Core) (w : Warrior)
    (h : (w.program.instructions.length : Int) > core.config.max_warrior_length) :
    core.load_warrior w = (Except.error CoreError.warriorTooLong, core) := by
  unfold Core.load_warrior
  rw [if_pos h]

/-- Witness for claim C10: a one-instruction warrior against
`max_warrior_length = 0`. -/
theorem claim_c10_witness :
    ((datWarrior.program.instructions.length : Int) >
      (Core.new tinyConfig).config.max_warrior_length) ∧
    (Core.new tinyConfig).load_warrior datWarrior =
      (Except.error CoreError.warriorTooLong, Core.new tinyConfig) :=
  ⟨by decide, claim_c10_theorem (Core.new tinyConfig) datWarrior (by decide)⟩

/-! ## Claim C4 -/

/-- Claim C4: whenever the fetched instruction's opcode is `DAT`, `execute`
returns `ExecuteDat(pc)` and the core it returns is exactly the core after
operand resolution, i.e. with all predecrement/postincrement side effects
already committed; concretely, executing `DAT >1, >2` over default cells
increments the B-fields of cells `pc+1` and `pc+2`. -/
theorem claim_c4_theorem (core : Core) (pc : Offset)
    (h : (core.getO pc).opcode = Opcode.dat) :
    execute core pc =
      some (Except.error (PError.executeDat pc), (resolveOperands core pc).core) ∧
    (execute datPostCore (Offset.new 0 8)).map
        (fun p => (p.1, p.2.getO (Offset.new 1 8), p.2.getO (Offset.new 2 8))) =
      some (Except.error (PError.executeDat (Offset.new 0 8)),
        mkInstruction Opcode.dat Modifier.f AddressMode.direct 0 AddressMode.direct 1,
        mkInstruction Opcode.dat Modifier.f AddressMode.direct 0 AddressMode.direct 1) := by
  constructor
  · simp only [execute, executeOp, h]
  · decide

/-- Witness for claim C4 at the `DAT >1, >2` core. -/
theorem claim_c4_witness :
    ((datPostCore.getO (Offset.new 0 8)).opcode = Opcode.dat) ∧
    execute datPostCore (Offset.new 0 8) =
      some (Except.error (PError.executeDat (Offset.new 0 8)),
        (resolveOperands datPostCore (Offset.new 0 8)).core) :=
  ⟨by decide, (claim_c4_theorem datPostCore (Offset.new 0 8) (by decide)).1⟩


/-! ## Claim C6 -/

lemma lookupVal_upsert {α : Type} (l : List (Nat × α)) (k w : Nat) (v : α) :
    lookupVal (upsert l k v) w = if k = w then some v else lookupVal l w := by
  induction l with
  | nil =>
      by_cases h : k = w <;> simp [upsert, lookupVal, h]
  | cons p t ih =>
      obtain ⟨k0, v0⟩ := p
      by_cases h1 : k0 = k
      · subst h1
        by_cases h2 : k0 = w <;> simp [upsert, lookupVal, h2]
      · by_cases h2 : k0 = w
        · subst h2
          have h3 : ¬k = k0 := fun hh => h1 hh.symm
          simp [upsert, lookupVal, h1, h3]
        · simp [upsert, lookupVal, h1, h2, ih]

lemma sumVals_upsert (l : List (Nat × Nat)) (k : Nat) (v : Nat) :
    sumVals (upsert l k v) + (lookupVal l k).getD 0 = sumVals l + v := by
  induction l with
  | nil => simp [upsert, lookupVal, sumVals]
  | cons p t ih =>
      obtain ⟨k0, v0⟩ := p
      by_cases h1 : k0 = k <;> simp [upsert, lookupVal, sumVals, h1] at ih ⊢ <;> omega

lemma countId_append_single (l : List Entry) (e : Entry) (w : Nat) :
    countId (l ++ [e]) w = countId l w + (if e.id = w then 1 else 0) := by
  unfold countId
  rw [List.countP_append]
  by_cases h : e.id = w <;> simp [h]

/-- Claim C6: in every queue state reachable by pushes and (successful)
pops from the empty queue — and `Core::step` touches the queue only through
these — the bookkeeping count `thread_counts[w]` equals the number of FIFO
entries whose warrior id is `w`, and the counts sum to the queue length. -/
theorem claim_c6_theorem (q : Queue) (h : QueueReachable q) :
    (∀ w, (q.thread_count w).getD 0 = countId q.queue w) ∧
    sumVals q.processes = q.queue.length := by
  induction h with
  | empty =>
      constructor
      · intro w
        simp [Queue.new, Queue.thread_count, lookupVal, countId]
      · simp [Queue.new, sumVals]
  | push q w o t hq ih =>
      obtain ⟨ihp, ihs⟩ := ih
      have hproc : (q.push w o t).processes =
          upsert q.processes w ((lookupVal q.processes w).getD 0 + 1) := rfl
      have hqueue : ∃ tid, (q.push w o t).queue = q.queue ++ [⟨w, tid, o⟩] := by
        cases t <;> exact ⟨_, rfl⟩
      obtain ⟨tid, hqueue⟩ := hqueue
      constructor
      · intro w'
        unfold Queue.thread_count
        rw [hproc, hqueue, lookupVal_upsert, countId_append_single]
        have hip := ihp w'
        unfold Queue.thread_count at hip
        by_cases hw : w = w'
        · subst hw
          have hipw := ihp w
          unfold Queue.thread_count at hipw
          simp [hipw]
        · simp [hw, hip]
      · rw [hproc, hqueue]
        have hidty := sumVals_upsert q.processes w ((lookupVal q.processes w).getD 0 + 1)
        simp only [List.length_append, List.length_cons, List.length_nil]
        omega
  | pop q q' e hq hpop ih =>
      obtain ⟨ihp, ihs⟩ := ih
      obtain ⟨qq, qp, qn⟩ := q
      cases qq with
      | nil => simp [Queue.pop] at hpop
      | cons e0 rest =>
          simp only [Queue.pop] at hpop
          cases hl : lookupVal qp e0.id with
          | none => rw [hl] at hpop; simp at hpop
          | some c =>
              rw [hl] at hpop
              simp only [Option.some.injEq, Except.ok.injEq, Prod.mk.injEq] at hpop
              obtain ⟨h3, h4⟩ := hpop
              subst h3
              subst h4
              have hc : c = countId (e0 :: rest) e0.id := by
                have hie := ihp e0.id
                simp only [Queue.thread_count] at hie
                rw [hl] at hie
                simpa using hie
              have hc1 : countId (e0 :: rest) e0.id = countId rest e0.id + 1 := by
                unfold countId
                simp [List.countP_cons]
              constructor
              · intro w'
                simp only [Queue.thread_count, lookupVal_upsert]
                by_cases hw : e0.id = w'
                · subst hw
                  have hif : (if e0.id = e0.id then some (c - 1) else lookupVal qp e0.id) =
                      some (c - 1) := if_pos rfl
                  rw [hif, Option.getD_some]
                  omega
                · simp only [if_neg hw]
                  have hip := ihp w'
                  simp only [Queue.thread_count] at hip
                  have hcnt : countId (e0 :: rest) w' = countId rest w' := by
                    unfold countId
                    simp [List.countP_cons, hw]
                  rw [hip]
                  exact hcnt
              · have hidty := sumVals_upsert qp e0.id (c - 1)
                rw [hl] at hidty
                simp only [List.length_cons] at ihs
                simp only [Option.getD_some] at hidty
                simp only [List.length_cons]
                omega

/-- Witness for claim C6 at the queue obtained by a single push. -/
theorem claim_c6_witness :
    QueueReachable reachQ ∧
    ((reachQ.thread_count 0).getD 0 = countId reachQ.queue 0 ∧
      sumVals reachQ.processes = reachQ.queue.length) :=
  have hre : QueueReachable reachQ :=
    QueueReachable.push Queue.new 0 (Offset.new 0 8) none QueueReachable.empty
  ⟨hre, (claim_c6_theorem reachQ hre).1 0, (claim_c6_theorem reachQ hre).2⟩


/-! ## Claim C2 -/

lemma writeFrom_length (src : List Instruction) :
    ∀ (dst : List Instruction) (i : Nat),
      (Core.writeFrom dst i src).length = dst.length := by
  induction src with
  | nil => intro dst i; rfl
  | cons x xs ih =>
      intro dst i
      show (Core.writeFrom (dst.set i x) (i + 1) xs).length = dst.length
      rw [ih, List.length_set]

lemma writeFrom_getElem_lt (src : List Instruction) :
    ∀ (dst : List Instruction) (i j : Nat), j < i →
      (Core.writeFrom dst i src)[j]? = dst[j]? := by
  induction src with
  | nil => intro dst i j _; rfl
  | cons x xs ih =>
      intro dst i j hj
      show (Core.writeFrom (dst.set i x) (i + 1) xs)[j]? = dst[j]?
      rw [ih (dst.set i x) (i + 1) j (by omega)]
      exact List.getElem?_set_ne (by omega)

lemma writeFrom_getElem (src : List Instruction) :
    ∀ (dst : List Instruction) (i j : Nat), j < src.length → i + j < dst.length →
      (Core.writeFrom dst i src)[i + j]? = src[j]? := by
  induction src with
  | nil => intro dst i j hj _; exact absurd hj (by simp)
  | cons x xs ih =>
      intro dst i j hj hb
      cases j with
      | zero =>
          show (Core.writeFrom (dst.set i x) (i + 1) xs)[i + 0]? = _
          rw [writeFrom_getElem_lt xs (dst.set i x) (i + 1) (i + 0) (by omega)]
          have hi : i + 0 = i := by omega
          rw [hi]
          rw [List.getElem?_set_self (by omega)]
          simp
      | succ k =>
          have hik : i + (k + 1) = (i + 1) + k := by omega
          rw [hik]
          show (Core.writeFrom (dst.set i x) (i + 1) xs)[(i + 1) + k]? = _
          rw [ih (dst.set i x) (i + 1) k (by simpa using hj)
            (by rw [List.length_set]; omega)]
          simp

/-- Claim C2, counterexample: in a `c2Config` core (`spacing = 4 ≥
min_distance = 1`, so the claim requires warrior 1 to land in `[5, 7)`),
loading two one-instruction warriors leaves warrior 1's queue entry at
offset 0, below the claimed interval, and no `MinDistanceTooLarge` failure
occurred. -/
theorem claim_c2_counterexample :
    c2TwoLoaded.process_queue.queue.getD 1 dummyEntry =
      (⟨1, 0, Offset.new 0 8⟩ : Entry) ∧
    c2Config.core_size / 2 = 4 ∧
    ¬(c2Config.core_size / 2 < c2Config.min_distance) ∧
    ¬(1 * (c2Config.core_size / 2) + c2Config.min_distance ≤
        (c2TwoLoaded.process_queue.queue.getD 1 dummyEntry).offset.value) := by
  decide

/-- Claim C2, amended: `load_warrior` performs no spacing at all — there is
no `MinDistanceTooLarge` error and `min_distance` is never consulted. Every
warrior that passes the length check is copied to the very front of the
core (cell `i` receives its normalized instruction `i`) and its single
queue entry is enqueued at offset `origin` (default 0), regardless of how
many warriors were loaded before. -/
theorem claim_c2_theorem (core : Core) (w : Warrior)
    (hlen : (w.program.instructions.length : Int) ≤ core.config.max_warrior_length)
    (hfit : w.program.instructions.length ≤ core.instructions.length) :
    (core.load_warrior w).1 = Except.ok core.warriors.length ∧
    (core.load_warrior w).2.warriors = core.warriors ++ [core.warriors.length] ∧
    (∀ i, i < w.program.instructions.length →
      (core.load_warrior w).2.instructions[i]? =
        (w.program.instructions[i]?).map core.normalize) ∧
    (core.load_warrior w).2.process_queue =
      core.process_queue.push core.warriors.length
        (Offset.new ((w.program.origin.getD 0 : Nat) : Int) core.len) none := by
  have hneg : ¬((w.program.instructions.length : Int) > core.config.max_warrior_length) :=
    not_lt.mpr hlen
  unfold Core.load_warrior
  rw [if_neg hneg]
  refine ⟨rfl, rfl, ?_, ?_⟩
  · intro i hi
    have hmap : i < (w.program.instructions.map core.normalize).length := by
      simpa using hi
    have hw := writeFrom_getElem (w.program.instructions.map core.normalize)
      core.instructions 0 i hmap (by simpa using lt_of_lt_of_le hi hfit)
    simp only [Nat.zero_add] at hw
    show (Core.writeFrom core.instructions 0
      (w.program.instructions.map core.normalize))[i]? = _
    rw [hw, List.getElem?_map]
  · simp only [Core.offsetOf, Core.len]
    rw [writeFrom_length]

/-- Witness for claim C2 at a fresh size-8 core and the one-instruction
`JMP $0, $0` warrior, instantiating the cell property at index 0. -/
theorem claim_c2_witness :
    ((jmpWarrior.program.instructions.length : Int) ≤
      (Core.new testConfig).config.max_warrior_length) ∧
    (jmpWarrior.program.instructions.length ≤ (Core.new testConfig).instructions.length) ∧
    (((Core.new testConfig).load_warrior jmpWarrior).1 =
      Except.ok (Core.new testConfig).warriors.length) ∧
    (((Core.new testConfig).load_warrior jmpWarrior).2.instructions[0]? =
      (jmpWarrior.program.instructions[0]?).map (Core.new testConfig).normalize) ∧
    (((Core.new testConfig).load_warrior jmpWarrior).2.process_queue =
      (Core.new testConfig).process_queue.push (Core.new testConfig).warriors.length
        (Offset.new ((jmpWarrior.program.origin.getD 0 : Nat) : Int)
          (Core.new testConfig).len) none) :=
  ⟨by decide, by decide,
    (claim_c2_theorem (Core.new testConfig) jmpWarrior (by decide) (by decide)).1,
    (claim_c2_theorem (Core.new testConfig) jmpWarrior (by decide) (by decide)).2.2.1 0
      (by decide),
    (claim_c2_theorem (Core.new testConfig) jmpWarrior (by decide) (by decide)).2.2.2⟩


/-! ## Claim C3 -/

lemma offset_div_value8 {x y : Int} (hx0 : 0 ≤ x) (hxu : x < 8) (hy : 0 < y) :
    (Offset.div ⟨x, 8⟩ ⟨y, 8⟩).value = Int.tdiv x y := by
  have h1 : 0 ≤ Int.tdiv x y := Int.tdiv_nonneg hx0 (le_of_lt hy)
  have h2 : Int.tdiv x y ≤ x := by
    rw [Int.tdiv_eq_ediv hx0 (le_of_lt hy)]
    exact Int.ediv_le_self _ hx0
  show (Offset.new (wrap32 (Int.tdiv x y)) 8).value = _
  rw [wrap32_eq_self (by omega) (by omega)]
  show Int.tdiv x y % 8 = Int.tdiv x y
  omega

lemma offset_rem_value8 {x y : Int} (hx0 : 0 ≤ x) (hyu : y < 8) (hy : 0 < y) :
    (Offset.rem ⟨x, 8⟩ ⟨y, 8⟩).value = Int.tmod x y := by
  have h1 : 0 ≤ Int.tmod x y := Int.tmod_nonneg _ hx0
  have h2 : Int.tmod x y < y := Int.tmod_lt_of_pos x hy
  show (Offset.new (wrap32 (Int.tmod x y)) 8).value = _
  rw [wrap32_eq_self (by omega) (by omega)]
  show Int.tmod x y % 8 = Int.tmod x y
  omega

/-- Claim C3: executing `DIV.md $1, $2` (resp. `MOD.md $1, $2`) on latched
operands `DAT #a1, #b1` (dividend) and `DAT #a2, #b2` (divisor and B-target)
fails with `DivideByZero` exactly when some modifier-selected divisor field
is zero, writes nothing for a zero-divisor side, and still commits the
quotient (resp. remainder) for every side whose divisor is non-zero — in
particular `DIV.F` with only the A-side divisor zero still writes the
B-side result. -/
theorem claim_c3_theorem (md : Modifier) (a1 b1 a2 b2 : Int)
    (ha1 : 0 ≤ a1) (ha1u : a1 < 8) (hb1 : 0 ≤ b1) (hb1u : b1 < 8)
    (ha2 : 0 ≤ a2) (ha2u : a2 < 8) (hb2 : 0 ≤ b2) (hb2u : b2 < 8) :
    (execute (divCore md a1 b1 a2 b2) (Offset.new 0 8)).map
        (fun p => (p.1, p.2.getO (Offset.new 2 8))) =
      some
        ((if divisorZero md (datCell a2 b2) then Except.error PError.divideByZero
          else Except.ok ⟨none, false⟩),
         combineSides md (datCell a1 b1) (datCell a2 b2) Int.tdiv) ∧
    (execute (modCore md a1 b1 a2 b2) (Offset.new 0 8)).map
        (fun p => (p.1, p.2.getO (Offset.new 2 8))) =
      some
        ((if divisorZero md (datCell a2 b2) then Except.error PError.divideByZero
          else Except.ok ⟨none, false⟩),
         combineSides md (datCell a1 b1) (datCell a2 b2) Int.tmod) := by
  have hexec : ∀ md : Modifier,
      (execute (divCore md a1 b1 a2 b2) (Offset.new 0 8) =
        executeOp Opcode.div md
          ⟨⟨1, 8⟩, datCell a1 b1, ⟨2, 8⟩, datCell a2 b2, divCore md a1 b1 a2 b2⟩
          (Offset.new 0 8) ⟨0, 8⟩ ⟨2, 8⟩ ⟨1, 8⟩) ∧
      (execute (modCore md a1 b1 a2 b2) (Offset.new 0 8) =
        executeOp Opcode.mod md
          ⟨⟨1, 8⟩, datCell a1 b1, ⟨2, 8⟩, datCell a2 b2, modCore md a1 b1 a2 b2⟩
          (Offset.new 0 8) ⟨0, 8⟩ ⟨2, 8⟩ ⟨1, 8⟩) := fun _ => ⟨rfl, rfl⟩
  have hlen1 : ∀ md : Modifier,
      ((divCore md a1 b1 a2 b2).len = 8) ∧ ((modCore md a1 b1 a2 b2).len = 8) :=
    fun _ => ⟨rfl, rfl⟩
  have hsetlen : ∀ (md : Modifier) (i : Instruction),
      (((divCore md a1 b1 a2 b2).setO ⟨2, 8⟩ i).len = 8) ∧
      (((modCore md a1 b1 a2 b2).setO ⟨2, 8⟩ i).len = 8) := fun _ _ => ⟨rfl, rfl⟩
  have hget0 : ∀ md : Modifier,
      ((divCore md a1 b1 a2 b2).getO ⟨2, 8⟩ = datCell a2 b2) ∧
      ((modCore md a1 b1 a2 b2).getO ⟨2, 8⟩ = datCell a2 b2) := fun _ => ⟨rfl, rfl⟩
  have hget0x : ∀ md : Modifier,
      ((divCore md a1 b1 a2 b2).getO (Offset.new 2 8) = datCell a2 b2) ∧
      ((modCore md a1 b1 a2 b2).getO (Offset.new 2 8) = datCell a2 b2) := fun _ => ⟨rfl, rfl⟩
  have hgset : ∀ (md : Modifier) (i : Instruction),
      (((divCore md a1 b1 a2 b2).setO ⟨2, 8⟩ i).getO (Offset.new 2 8) = i) ∧
      (((modCore md a1 b1 a2 b2).setO ⟨2, 8⟩ i).getO (Offset.new 2 8) = i) :=
    fun _ _ => ⟨rfl, rfl⟩
  have hgsetx : ∀ (md : Modifier) (i : Instruction),
      (((divCore md a1 b1 a2 b2).setO ⟨2, 8⟩ i).getO ⟨2, 8⟩ = i) ∧
      (((modCore md a1 b1 a2 b2).setO ⟨2, 8⟩ i).getO ⟨2, 8⟩ = i) := fun _ _ => ⟨rfl, rfl⟩
  have hgsets : ∀ (md : Modifier) (i j : Instruction),
      ((((divCore md a1 b1 a2 b2).setO ⟨2, 8⟩ i).setO ⟨2, 8⟩ j).getO (Offset.new 2 8) = j) ∧
      ((((modCore md a1 b1 a2 b2).setO ⟨2, 8⟩ i).setO ⟨2, 8⟩ j).getO (Offset.new 2 8) = j) :=
    fun _ _ _ => ⟨rfl, rfl⟩
  refine ⟨?_, ?_⟩
  · cases md with
    | a =>
        by_cases h2 : a2 = 0
        · subst h2
          simp [hexec, executeOp, runOnFields, fieldPairs, combineSides, divisorZero, Instruction.fieldVal, Instruction.setFieldVal, datCell, mkInstruction, hlen1, hsetlen, hget0, hget0x, hgset, hgsetx, hgsets]
        · have hp : 0 < a2 := by omega
          have hv0 : (Offset.div ⟨a1, 8⟩ ⟨a2, 8⟩).value = Int.tdiv a1 a2 :=
            offset_div_value8 ha1 ha1u hp
          simp [hexec, executeOp, runOnFields, fieldPairs, combineSides, divisorZero, Instruction.fieldVal, Instruction.setFieldVal, datCell, mkInstruction, hlen1, hsetlen, hget0, hget0x, hgset, hgsetx, hgsets, h2, hv0]
    | b =>
        by_cases h3 : b2 = 0
        · subst h3
          simp [hexec, executeOp, runOnFields, fieldPairs, combineSides, divisorZero, Instruction.fieldVal, Instruction.setFieldVal, datCell, mkInstruction, hlen1, hsetlen, hget0, hget0x, hgset, hgsetx, hgsets]
        · have hp : 0 < b2 := by omega
          have hv0 : (Offset.div ⟨b1, 8⟩ ⟨b2, 8⟩).value = Int.tdiv b1 b2 :=
            offset_div_value8 hb1 hb1u hp
          simp [hexec, executeOp, runOnFields, fieldPairs, combineSides, divisorZero, Instruction.fieldVal, Instruction.setFieldVal, datCell, mkInstruction, hlen1, hsetlen, hget0, hget0x, hgset, hgsetx, hgsets, h3, hv0]
    | ab =>
        by_cases h3 : b2 = 0
        · subst h3
          simp [hexec, executeOp, runOnFields, fieldPairs, combineSides, divisorZero, Instruction.fieldVal, Instruction.setFieldVal, datCell, mkInstruction, hlen1, hsetlen, hget0, hget0x, hgset, hgsetx, hgsets]
        · have hp : 0 < b2 := by omega
          have hv0 : (Offset.div ⟨a1, 8⟩ ⟨b2, 8⟩).value = Int.tdiv a1 b2 :=
            offset_div_value8 ha1 ha1u hp
          simp [hexec, executeOp, runOnFields, fieldPairs, combineSides, divisorZero, Instruction.fieldVal, Instruction.setFieldVal, datCell, mkInstruction, hlen1, hsetlen, hget0, hget0x, hgset, hgsetx, hgsets, h3, hv0]
    | ba =>
        by_cases h2 : a2 = 0
        · subst h2
          simp [hexec, executeOp, runOnFields, fieldPairs, combineSides, divisorZero, Instruction.fieldVal, Instruction.setFieldVal, datCell, mkInstruction, hlen1, hsetlen, hget0, hget0x, hgset, hgsetx, hgsets]
        · have hp : 0 < a2 := by omega
          have hv0 : (Offset.div ⟨b1, 8⟩ ⟨a2, 8⟩).value = Int.tdiv b1 a2 :=
            offset_div_value8 hb1 hb1u hp
          simp [hexec, executeOp, runOnFields, fieldPairs, combineSides, divisorZero, Instruction.fieldVal, Instruction.setFieldVal, datCell, mkInstruction, hlen1, hsetlen, hget0, hget0x, hgset, hgsetx, hgsets, h2, hv0]
    | f =>
        by_cases h2 : a2 = 0 <;> by_cases h3 : b2 = 0
        · subst h2; subst h3
          simp [hexec, executeOp, runOnFields, fieldPairs, combineSides, divisorZero, Instruction.fieldVal, Instruction.setFieldVal, datCell, mkInstruction, hlen1, hsetlen, hget0, hget0x, hgset, hgsetx, hgsets]
        · subst h2
          have hp1 : 0 < b2 := by omega
          have hv1 : (Offset.div ⟨b1, 8⟩ ⟨b2, 8⟩).value = Int.tdiv b1 b2 :=
            offset_div_value8 hb1 hb1u hp1
          simp [hexec, executeOp, runOnFields, fieldPairs, combineSides, divisorZero, Instruction.fieldVal, Instruction.setFieldVal, datCell, mkInstruction, hlen1, hsetlen, hget0, hget0x, hgset, hgsetx, hgsets, h3, hv1]
        · subst h3
          have hp0 : 0 < a2 := by omega
          have hv0 : (Offset.div ⟨a1, 8⟩ ⟨a2, 8⟩).value = Int.tdiv a1 a2 :=
            offset_div_value8 ha1 ha1u hp0
          simp [hexec, executeOp, runOnFields, fieldPairs, combineSides, divisorZero, Instruction.fieldVal, Instruction.setFieldVal, datCell, mkInstruction, hlen1, hsetlen, hget0, hget0x, hgset, hgsetx, hgsets, h2, hv0]
        · have hp0 : 0 < a2 := by omega
          have hp1 : 0 < b2 := by omega
          have hv0 : (Offset.div ⟨a1, 8⟩ ⟨a2, 8⟩).value = Int.tdiv a1 a2 :=
            offset_div_value8 ha1 ha1u hp0
          have hv1 : (Offset.div ⟨b1, 8⟩ ⟨b2, 8⟩).value = Int.tdiv b1 b2 :=
            offset_div_value8 hb1 hb1u hp1
          simp [hexec, executeOp, runOnFields, fieldPairs, combineSides, divisorZero, Instruction.fieldVal, Instruction.setFieldVal, datCell, mkInstruction, hlen1, hsetlen, hget0, hget0x, hgset, hgsetx, hgsets, h2, h3, hv0, hv1]
    | x =>
        by_cases h2 : b2 = 0 <;> by_cases h3 : a2 = 0
        · subst h2; subst h3
          simp [hexec, executeOp, runOnFields, fieldPairs, combineSides, divisorZero, Instruction.fieldVal, Instruction.setFieldVal, datCell, mkInstruction, hlen1, hsetlen, hget0, hget0x, hgset, hgsetx, hgsets]
        · subst h2
          have hp1 : 0 < a2 := by omega
          have hv1 : (Offset.div ⟨b1, 8⟩ ⟨a2, 8⟩).value = Int.tdiv b1 a2 :=
            offset_div_value8 hb1 hb1u hp1
          simp [hexec, executeOp, runOnFields, fieldPairs, combineSides, divisorZero, Instruction.fieldVal, Instruction.setFieldVal, datCell, mkInstruction, hlen1, hsetlen, hget0, hget0x, hgset, hgsetx, hgsets, h3, hv1]
        · subst h3
          have hp0 : 0 < b2 := by omega
          have hv0 : (Offset.div ⟨a1, 8⟩ ⟨b2, 8⟩).value = Int.tdiv a1 b2 :=
            offset_div_value8 ha1 ha1u hp0
          simp [hexec, executeOp, runOnFields, fieldPairs, combineSides, divisorZero, Instruction.fieldVal, Instruction.setFieldVal, datCell, mkInstruction, hlen1, hsetlen, hget0, hget0x, hgset, hgsetx, hgsets, h2, hv0]
        · have hp0 : 0 < b2 := by omega
          have hp1 : 0 < a2 := by omega
          have hv0 : (Offset.div ⟨a1, 8⟩ ⟨b2, 8⟩).value = Int.tdiv a1 b2 :=
            offset_div_value8 ha1 ha1u hp0
          have hv1 : (Offset.div ⟨b1, 8⟩ ⟨a2, 8⟩).value = Int.tdiv b1 a2 :=
            offset_div_value8 hb1 hb1u hp1
          simp [hexec, executeOp, runOnFields, fieldPairs, combineSides, divisorZero, Instruction.fieldVal, Instruction.setFieldVal, datCell, mkInstruction, hlen1, hsetlen, hget0, hget0x, hgset, hgsetx, hgsets, h2, h3, hv0, hv1]
    | i =>
        by_cases h2 : a2 = 0 <;> by_cases h3 : b2 = 0
        · subst h2; subst h3
          simp [hexec, executeOp, runOnFields, fieldPairs, combineSides, divisorZero, Instruction.fieldVal, Instruction.setFieldVal, datCell, mkInstruction, hlen1, hsetlen, hget0, hget0x, hgset, hgsetx, hgsets]
        · subst h2
          have hp1 : 0 < b2 := by omega
          have hv1 : (Offset.div ⟨b1, 8⟩ ⟨b2, 8⟩).value = Int.tdiv b1 b2 :=
            offset_div_value8 hb1 hb1u hp1
          simp [hexec, executeOp, runOnFields, fieldPairs, combineSides, divisorZero, Instruction.fieldVal, Instruction.setFieldVal, datCell, mkInstruction, hlen1, hsetlen, hget0, hget0x, hgset, hgsetx, hgsets, h3, hv1]
        · subst h3
          have hp0 : 0 < a2 := by omega
          have hv0 : (Offset.div ⟨a1, 8⟩ ⟨a2, 8⟩).value = Int.tdiv a1 a2 :=
            offset_div_value8 ha1 ha1u hp0
          simp [hexec, executeOp, runOnFields, fieldPairs, combineSides, divisorZero, Instruction.fieldVal, Instruction.setFieldVal, datCell, mkInstruction, hlen1, hsetlen, hget0, hget0x, hgset, hgsetx, hgsets, h2, hv0]
        · have hp0 : 0 < a2 := by omega
          have hp1 : 0 < b2 := by omega
          have hv0 : (Offset.div ⟨a1, 8⟩ ⟨a2, 8⟩).value = Int.tdiv a1 a2 :=
            offset_div_value8 ha1 ha1u hp0
          have hv1 : (Offset.div ⟨b1, 8⟩ ⟨b2, 8⟩).value = Int.tdiv b1 b2 :=
            offset_div_value8 hb1 hb1u hp1
          simp [hexec, executeOp, runOnFields, fieldPairs, combineSides, divisorZero, Instruction.fieldVal, Instruction.setFieldVal, datCell, mkInstruction, hlen1, hsetlen, hget0, hget0x, hgset, hgsetx, hgsets, h2, h3, hv0, hv1]
  · cases md with
    | a =>
        by_cases h2 : a2 = 0
        · subst h2
          simp [hexec, executeOp, runOnFields, fieldPairs, combineSides, divisorZero, Instruction.fieldVal, Instruction.setFieldVal, datCell, mkInstruction, hlen1, hsetlen, hget0, hget0x, hgset, hgsetx, hgsets]
        · have hp : 0 < a2 := by omega
          have hv0 : (Offset.rem ⟨a1, 8⟩ ⟨a2, 8⟩).value = Int.tmod a1 a2 :=
            offset_rem_value8 ha1 ha2u hp
          simp [hexec, executeOp, runOnFields, fieldPairs, combineSides, divisorZero, Instruction.fieldVal, Instruction.setFieldVal, datCell, mkInstruction, hlen1, hsetlen, hget0, hget0x, hgset, hgsetx, hgsets, h2, hv0]
    | b =>
        by_cases h3 : b2 = 0
        · subst h3
          simp [hexec, executeOp, runOnFields, fieldPairs, combineSides, divisorZero, Instruction.fieldVal, Instruction.setFieldVal, datCell, mkInstruction, hlen1, hsetlen, hget0, hget0x, hgset, hgsetx, hgsets]
        · have hp : 0 < b2 := by omega
          have hv0 : (Offset.rem ⟨b1, 8⟩ ⟨b2, 8⟩).value = Int.tmod b1 b2 :=
            offset_rem_value8 hb1 hb2u hp
          simp [hexec, executeOp, runOnFields, fieldPairs, combineSides, divisorZero, Instruction.fieldVal, Instruction.setFieldVal, datCell, mkInstruction, hlen1, hsetlen, hget0, hget0x, hgset, hgsetx, hgsets, h3, hv0]
    | ab =>
        by_cases h3 : b2 = 0
        · subst h3
          simp [hexec, executeOp, runOnFields, fieldPairs, combineSides, divisorZero, Instruction.fieldVal, Instruction.setFieldVal, datCell, mkInstruction, hlen1, hsetlen, hget0, hget0x, hgset, hgsetx, hgsets]
        · have hp : 0 < b2 := by omega
          have hv0 : (Offset.rem ⟨a1, 8⟩ ⟨b2, 8⟩).value = Int.tmod a1 b2 :=
            offset_rem_value8 ha1 hb2u hp
          simp [hexec, executeOp, runOnFields, fieldPairs, combineSides, divisorZero, Instruction.fieldVal, Instruction.setFieldVal, datCell, mkInstruction, hlen1, hsetlen, hget0, hget0x, hgset, hgsetx, hgsets, h3, hv0]
    | ba =>
        by_cases h2 : a2 = 0
        · subst h2
          simp [hexec, executeOp, runOnFields, fieldPairs, combineSides, divisorZero, Instruction.fieldVal, Instruction.setFieldVal, datCell, mkInstruction, hlen1, hsetlen, hget0, hget0x, hgset, hgsetx, hgsets]
        · have hp : 0 < a2 := by omega
          have hv0 : (Offset.rem ⟨b1, 8⟩ ⟨a2, 8⟩).value = Int.tmod b1 a2 :=
            offset_rem_value8 hb1 ha2u hp
          simp [hexec, executeOp, runOnFields, fieldPairs, combineSides, divisorZero, Instruction.fieldVal, Instruction.setFieldVal, datCell, mkInstruction, hlen1, hsetlen, hget0, hget0x, hgset, hgsetx, hgsets, h2, hv0]
    | f =>
        by_cases h2 : a2 = 0 <;> by_cases h3 : b2 = 0
        · subst h2; subst h3
          simp [hexec, executeOp, runOnFields, fieldPairs, combineSides, divisorZero, Instruction.fieldVal, Instruction.setFieldVal, datCell, mkInstruction, hlen1, hsetlen, hget0, hget0x, hgset, hgsetx, hgsets]
        · subst h2
          have hp1 : 0 < b2 := by omega
          have hv1 : (Offset.rem ⟨b1, 8⟩ ⟨b2, 8⟩).value = Int.tmod b1 b2 :=
            offset_rem_value8 hb1 hb2u hp1
          simp [hexec, executeOp, runOnFields, fieldPairs, combineSides, divisorZero, Instruction.fieldVal, Instruction.setFieldVal, datCell, mkInstruction, hlen1, hsetlen, hget0, hget0x, hgset, hgsetx, hgsets, h3, hv1]
        · subst h3
          have hp0 : 0 < a2 := by omega
          have hv0 : (Offset.rem ⟨a1, 8⟩ ⟨a2, 8⟩).value = Int.tmod a1 a2 :=
            offset_rem_value8 ha1 ha2u hp0
          simp [hexec, executeOp, runOnFields, fieldPairs, combineSides, divisorZero, Instruction.fieldVal, Instruction.setFieldVal, datCell, mkInstruction, hlen1, hsetlen, hget0, hget0x, hgset, hgsetx, hgsets, h2, hv0]
        · have hp0 : 0 < a2 := by omega
          have hp1 : 0 < b2 := by omega
          have hv0 : (Offset.rem ⟨a1, 8⟩ ⟨a2, 8⟩).value = Int.tmod a1 a2 :=
            offset_rem_value8 ha1 ha2u hp0
          have hv1 : (Offset.rem ⟨b1, 8⟩ ⟨b2, 8⟩).value = Int.tmod b1 b2 :=
            offset_rem_value8 hb1 hb2u hp1
          simp [hexec, executeOp, runOnFields, fieldPairs, combineSides, divisorZero, Instruction.fieldVal, Instruction.setFieldVal, datCell, mkInstruction, hlen1, hsetlen, hget0, hget0x, hgset, hgsetx, hgsets, h2, h3, hv0, hv1]
    | x =>
        by_cases h2 : b2 = 0 <;> by_cases h3 : a2 = 0
        · subst h2; subst h3
          simp [hexec, executeOp, runOnFields, fieldPairs, combineSides, divisorZero, Instruction.fieldVal, Instruction.setFieldVal, datCell, mkInstruction, hlen1, hsetlen, hget0, hget0x, hgset, hgsetx, hgsets]
        · subst h2
          have hp1 : 0 < a2 := by omega
          have hv1 : (Offset.rem ⟨b1, 8⟩ ⟨a2, 8⟩).value = Int.tmod b1 a2 :=
            offset_rem_value8 hb1 ha2u hp1
          simp [hexec, executeOp, runOnFields, fieldPairs, combineSides, divisorZero, Instruction.fieldVal, Instruction.setFieldVal, datCell, mkInstruction, hlen1, hsetlen, hget0, hget0x, hgset, hgsetx, hgsets, h3, hv1]
        · subst h3
          have hp0 : 0 < b2 := by omega
          have hv0 : (Offset.rem ⟨a1, 8⟩ ⟨b2, 8⟩).value = Int.tmod a1 b2 :=
            offset_rem_value8 ha1 hb2u hp0
          simp [hexec, executeOp, runOnFields, fieldPairs, combineSides, divisorZero, Instruction.fieldVal, Instruction.setFieldVal, datCell, mkInstruction, hlen1, hsetlen, hget0, hget0x, hgset, hgsetx, hgsets, h2, hv0]
        · have hp0 : 0 < b2 := by omega
          have hp1 : 0 < a2 := by omega
          have hv0 : (Offset.rem ⟨a1, 8⟩ ⟨b2, 8⟩).value = Int.tmod a1 b2 :=
            offset_rem_value8 ha1 hb2u hp0
          have hv1 : (Offset.rem ⟨b1, 8⟩ ⟨a2, 8⟩).value = Int.tmod b1 a2 :=
            offset_rem_value8 hb1 ha2u hp1
          simp [hexec, executeOp, runOnFields, fieldPairs, combineSides, divisorZero, Instruction.fieldVal, Instruction.setFieldVal, datCell, mkInstruction, hlen1, hsetlen, hget0, hget0x, hgset, hgsetx, hgsets, h2, h3, hv0, hv1]
    | i =>
        by_cases h2 : a2 = 0 <;> by_cases h3 : b2 = 0
        · subst h2; subst h3
          simp [hexec, executeOp, runOnFields, fieldPairs, combineSides, divisorZero, Instruction.fieldVal, Instruction.setFieldVal, datCell, mkInstruction, hlen1, hsetlen, hget0, hget0x, hgset, hgsetx, hgsets]
        · subst h2
          have hp1 : 0 < b2 := by omega
          have hv1 : (Offset.rem ⟨b1, 8⟩ ⟨b2, 8⟩).value = Int.tmod b1 b2 :=
            offset_rem_value8 hb1 hb2u hp1
          simp [hexec, executeOp, runOnFields, fieldPairs, combineSides, divisorZero, Instruction.fieldVal, Instruction.setFieldVal, datCell, mkInstruction, hlen1, hsetlen, hget0, hget0x, hgset, hgsetx, hgsets, h3, hv1]
        · subst h3
          have hp0 : 0 < a2 := by omega
          have hv0 : (Offset.rem ⟨a1, 8⟩ ⟨a2, 8⟩).value = Int.tmod a1 a2 :=
            offset_rem_value8 ha1 ha2u hp0
          simp [hexec, executeOp, runOnFields, fieldPairs, combineSides, divisorZero, Instruction.fieldVal, Instruction.setFieldVal, datCell, mkInstruction, hlen1, hsetlen, hget0, hget0x, hgset, hgsetx, hgsets, h2, hv0]
        · have hp0 : 0 < a2 := by omega
          have hp1 : 0 < b2 := by omega
          have hv0 : (Offset.rem ⟨a1, 8⟩ ⟨a2, 8⟩).value = Int.tmod a1 a2 :=
            offset_rem_value8 ha1 ha2u hp0
          have hv1 : (Offset.rem ⟨b1, 8⟩ ⟨b2, 8⟩).value = Int.tmod b1 b2 :=
            offset_rem_value8 hb1 hb2u hp1
          simp [hexec, executeOp, runOnFields, fieldPairs, combineSides, divisorZero, Instruction.fieldVal, Instruction.setFieldVal, datCell, mkInstruction, hlen1, hsetlen, hget0, hget0x, hgset, hgsetx, hgsets, h2, h3, hv0, hv1]

/-- Witness for claim C3 at `DIV.F`/`MOD.F` with dividend `(4, 6)` and
divisor `(0, 2)` (the `a_zero` test case of `src/core/opcode.rs`). -/
theorem claim_c3_witness :
    ((0 : Int) ≤ 4 ∧ (4 : Int) < 8 ∧ (0 : Int) ≤ 6 ∧ (6 : Int) < 8 ∧
      (0 : Int) ≤ 0 ∧ (0 : Int) < 8 ∧ (0 : Int) ≤ 2 ∧ (2 : Int) < 8) ∧
    ((execute (divCore Modifier.f 4 6 0 2) (Offset.new 0 8)).map
        (fun p => (p.1, p.2.getO (Offset.new 2 8))) =
      some
        ((if divisorZero Modifier.f (datCell 0 2) then Except.error PError.divideByZero
          else Except.ok ⟨none, false⟩),
         combineSides Modifier.f (datCell 4 6) (datCell 0 2) Int.tdiv) ∧
      (execute (modCore Modifier.f 4 6 0 2) (Offset.new 0 8)).map
          (fun p => (p.1, p.2.getO (Offset.new 2 8))) =
        some
          ((if divisorZero Modifier.f (datCell 0 2) then Except.error PError.divideByZero
            else Except.ok ⟨none, false⟩),
           combineSides Modifier.f (datCell 4 6) (datCell 0 2) Int.tmod)) :=
  ⟨by decide,
    claim_c3_theorem Modifier.f 4 6 0 2 (by decide) (by decide) (by decide) (by decide)
      (by decide) (by decide) (by decide) (by decide)⟩


/-! ## Claim C5 -/

lemma runAux_empty (f : Nat) (core : Core) (results : List (Nat × BattleResult))
    (hq : core.process_queue.queue = []) :
    Core.runAux (f + 1) core results = some (results, core) := by
  by_cases h : core.steps_taken < core.config.max_cycles
  · simp [Core.runAux, h, Core.step, Queue.pop, hq]
  · simp [Core.runAux, h]

/-- Claim C5: a battle whose only loaded warrior is the single instruction
`DAT #0, #0` takes exactly one step — the task dies without being
re-enqueued (the queue ends empty) — and reports that warrior as
`Loss(ExecuteDat(0))`, 0 being the offset at which the instruction was
loaded. This holds for every configuration with positive core size, at
least one cycle, and a warrior-length cap of at least 1. -/
theorem claim_c5_theorem (cfg : CoreConfig) (hcs : 0 < cfg.core_size)
    (hmc : 0 < cfg.max_cycles) (hml : 1 ≤ cfg.max_warrior_length) :
    (Core.run (Core.load_warrior (Core.new cfg) datWarrior).2).map
        (fun p => (p.1, p.2.steps_taken, p.2.process_queue.queue.length)) =
      some ([(0, BattleResult.loss (PError.executeDat (Offset.new 0 cfg.core_size)))],
        1, 0) := by
  obtain ⟨n, hn⟩ : ∃ n, cfg.core_size.toNat = n + 1 :=
    ⟨cfg.core_size.toNat - 1, by omega⟩
  have hsz : ((n + 1 : Nat) : Int) = cfg.core_size := by
    rw [← hn]
    exact Int.toNat_of_nonneg (le_of_lt hcs)
  have hzm : ∀ m : Int, Int.emod 0 m = 0 := fun m => Int.zero_emod m
  have hoff : Offset.new 0 cfg.core_size = ⟨0, cfg.core_size⟩ := by
    simp [Offset.new, offset_value, hzm]
  have hnotlong : ¬((datWarrior.program.instructions.length : Int) >
      (Core.new cfg).config.max_warrior_length) := by
    simp only [datWarrior, Core.new, List.length_cons, List.length_nil]
    omega
  have hload : (Core.load_warrior (Core.new cfg) datWarrior).2 =
      { config := cfg
        instructions :=
          mkInstruction Opcode.dat Modifier.f AddressMode.immediate 0 AddressMode.immediate 0
            :: List.replicate n Instruction.default
        process_queue := ⟨[⟨0, 0, ⟨0, cfg.core_size⟩⟩], [(0, 1)], [(0, 1)]⟩
        steps_taken := 0
        warriors := [0] } := by
    unfold Core.load_warrior
    rw [if_neg hnotlong]
    simp only [datWarrior, Core.new, hn, List.replicate_succ]
    simp [Core.writeFrom, Core.normalize, Core.offsetOf, Core.len, Offset.new,
      offset_value, Queue.push, Queue.new, upsert, lookupVal, mkInstruction,
      List.length_set, hsz, hzm]
  have hstep1 : Core.step (Core.load_warrior (Core.new cfg) datWarrior).2 =
      some (StepResult.cont 0 (some (PError.executeDat ⟨0, cfg.core_size⟩)),
        { config := cfg
          instructions :=
            mkInstruction Opcode.dat Modifier.f AddressMode.immediate 0 AddressMode.immediate 0
              :: List.replicate n Instruction.default
          process_queue := ⟨[], [(0, 0)], [(0, 1)]⟩
          steps_taken := 1
          warriors := [0] }) := by
    rw [hload]
    simp [Core.step, Queue.pop, lookupVal, Queue.thread_count, execute,
      resolveOperands, resolveField, executeOp, Core.getO, upsert, mkInstruction]
  have hrun1 : Core.runAux (cfg.max_cycles.toNat + 1)
      (Core.load_warrior (Core.new cfg) datWarrior).2 [] =
      some ([(0, BattleResult.loss (PError.executeDat ⟨0, cfg.core_size⟩))],
        { config := cfg
          instructions :=
            mkInstruction Opcode.dat Modifier.f AddressMode.immediate 0 AddressMode.immediate 0
              :: List.replicate n Instruction.default
          process_queue := ⟨[], [(0, 0)], [(0, 1)]⟩
          steps_taken := 1
          warriors := [0] }) := by
    obtain ⟨k, hk⟩ : ∃ k, cfg.max_cycles.toNat = k + 1 :=
      ⟨cfg.max_cycles.toNat - 1, by omega⟩
    rw [hk]
    show Core.runAux (k + 1 + 1) _ [] = _
    rw [Core.runAux]
    have hzero : ((Core.load_warrior (Core.new cfg) datWarrior).2).steps_taken = 0 := by
      rw [hload]
    have hcfg : ((Core.load_warrior (Core.new cfg) datWarrior).2).config = cfg := by
      rw [hload]
    rw [hzero, hcfg, if_pos hmc, hstep1]
    simp only [List.length_cons, List.length_nil]
    have hcond : ¬(1 < 0 + 1 ∧ 0 + 1 - countLoss
        (upsert [] 0 (BattleResult.loss (PError.executeDat
          (⟨0, cfg.core_size⟩ : Offset)))) ≤ 1) := by
      intro hcontra
      exact absurd hcontra.1 (by omega)
    rw [if_neg hcond]
    rw [runAux_empty k _ _ rfl]
    simp [upsert]
  have hfuel : ((Core.load_warrior (Core.new cfg) datWarrior).2).config.max_cycles -
      ((Core.load_warrior (Core.new cfg) datWarrior).2).steps_taken = cfg.max_cycles := by
    rw [hload]
    simp
  unfold Core.run
  simp only [hfuel, hrun1]
  simp [countLoss, lookupVal, hoff]

/-- Witness for claim C5 at the size-8 test configuration. -/
theorem claim_c5_witness :
    ((0 : Int) < testConfig.core_size ∧ (0 : Int) < testConfig.max_cycles ∧
      (1 : Int) ≤ testConfig.max_warrior_length) ∧
    (Core.run (Core.load_warrior (Core.new testConfig) datWarrior).2).map
        (fun p => (p.1, p.2.steps_taken, p.2.process_queue.queue.length)) =
      some ([(0, BattleResult.loss (PError.executeDat (Offset.new 0 testConfig.core_size)))],
        1, 0) :=
  ⟨⟨by decide, by decide, by decide⟩,
    claim_c5_theorem testConfig (by decide) (by decide) (by decide)⟩

end Corewars
